import Mathlib

/-!
Formal model of the expected-runs pipeline (Helpers.py,
generate_gamestate_summary.py, target_and_calculated_pipeline.py).

Python dataframes are modelled as lists of `Row` records; pandas integer
columns are `Int`, nullable numeric columns are `Option Int`, and float
columns are modelled over `Rat`.  Each definition below is a direct
translation of the corresponding Python function.
-/

namespace ExpectedRuns

/-- One pitch record, with the fields the core pipeline reads:
`Inning`, `Top/Bottom`, `Outs`, `Balls`, `Strikes`, `PlayResult`,
`KorBB`, `PitchCall`, `OutsOnPlay`, `RunsScored`.  The nullable numeric
columns (`OutsOnPlay`, `RunsScored`) are `Option Int` (`none` = NaN). -/
structure Row where
  inning : Int
  topBottom : String
  outs : Int
  balls : Int
  strikes : Int
  playResult : String
  korBB : String
  pitchCall : String
  outsOnPlay : Option Int
  runsScored : Option Int
deriving DecidableEq, Repr

/-- The half-inning key `f"{row['Inning']}-{row['Top/Bottom']}"` used both by
`add_runner_states` (as a string) and by `add_runs_remaining`
(`groupby(['Inning','Top/Bottom'])`).  Since `Inning` is a number the string
determines the pair and vice versa, so we model the key as the pair. -/
def halfKey (r : Row) : Int × String := (r.inning, r.topBottom)

/-- `int(row['RunsScored']) if not pd.isna(row['RunsScored']) else 0`. -/
def runsScoredInt (r : Row) : Int := r.runsScored.getD 0

/-- `int(row['OutsOnPlay']) if not pd.isna(row['OutsOnPlay']) else 0`. -/
def outsOnPlayInt (r : Row) : Int := r.outsOnPlay.getD 0

/-- One iteration of the scorer-removal `while` loop body in
`add_runner_states`: `if r3: r3 = 0 elif r2: r2 = 0 elif r1: r1 = 0`
(Python truthiness: a base is occupied iff its flag is nonzero). -/
def removeOneScorer (r1 r2 r3 : Int) : Int × Int × Int :=
  if r3 ≠ 0 then (r1, r2, 0)
  else if r2 ≠ 0 then (r1, 0, r3)
  else if r1 ≠ 0 then (0, r2, r3)
  else (r1, r2, r3)

/-- The `while runs_scored > 0` loop of `add_runner_states`, unrolled on the
number of iterations.  The counter is decremented unconditionally on every
iteration, so the loop runs exactly `max runs_scored 0 = runs_scored.toNat`
times; `removeScorersN` performs that many iterations. -/
def removeScorersN (r1 r2 r3 : Int) : Nat → Int × Int × Int
  | 0 => (r1, r2, r3)
  | n + 1 =>
      let s := removeOneScorer r1 r2 r3
      removeScorersN s.1 s.2.1 s.2.2 n

/-- `while runs_scored > 0: (clear one scorer); runs_scored -= 1`. -/
def removeScorers (r1 r2 r3 : Int) (runs : Int) : Int × Int × Int :=
  removeScorersN r1 r2 r3 runs.toNat

/-- `is_walk = (row.get('KorBB') == 'Walk') or (row.get('PitchCall') == 'HitByPitch')`. -/
def isWalkRow (r : Row) : Bool := r.korBB = "Walk" || r.pitchCall = "HitByPitch"

/-- The play-result dispatch of `add_runner_states`, acting on the runner
flags after scorer removal.  Each branch is the corresponding Python
simultaneous assignment, written as the resulting `(r1, r2, r3)` tuple:
`Single`: `r3, r2, r1 = r2, r1, 1`; `Double`: `r3, r2, r1 = r1, 1, 0`;
`Triple`: `r3, r2, r1 = 1, 0, 0`; `HomeRun`: `r1 = r2 = r3 = 0`;
walk/HBP: the forced-advancement ladder; otherwise no movement. -/
def applyPlayResult (playResult : String) (walk : Bool) (r1 r2 r3 : Int) :
    Int × Int × Int :=
  if playResult = "Single" then (1, r1, r2)
  else if playResult = "Double" then (0, 1, r1)
  else if playResult = "Triple" then (0, 0, 1)
  else if playResult = "HomeRun" then (0, 0, 0)
  else if walk then
    if r1 ≠ 0 ∧ r2 ≠ 0 ∧ r3 ≠ 0 then (r1, r2, r3)
    else if r1 ≠ 0 ∧ r2 ≠ 0 then (1, 1, 1)
    else if r1 ≠ 0 then (1, 1, r3)
    else (1, r2, r3)
  else (r1, r2, r3)

/-- The runner-flag update performed for one row after the pre-pitch state
has been emitted: scorer removal followed by the play-result dispatch. -/
def updateRunners (r1 r2 r3 : Int) (row : Row) : Int × Int × Int :=
  let s := removeScorers r1 r2 r3 (runsScoredInt row)
  applyPlayResult row.playResult (isWalkRow row) s.1 s.2.1 s.2.2

/-- The mutable loop state of `add_runner_states`: runner flags, the running
out count, and the previous half-inning key (`None` before the first row). -/
structure RSState where
  r1 : Int
  r2 : Int
  r3 : Int
  outs : Int
  prevKey : Option (Int × String)
deriving DecidableEq, Repr

/-- What one iteration of the `add_runner_states` loop did on one row:
the row's half-inning key, the previous key, the out counter before the
reset check, whether the reset fired, the emitted pre-pitch runner flags,
and the out counter at the moment of emission. -/
structure TraceEntry where
  key : Int × String
  prevKey : Option (Int × String)
  preOuts : Int
  didReset : Bool
  emit : Int × Int × Int
  emitOuts : Int
deriving DecidableEq, Repr

/-- One iteration of the `add_runner_states` row loop: reset check, emit the
pre-pitch flags, scorer removal, play dispatch, out accumulation, and the
half-inning tracker update.  Returns the new state and the trace entry. -/
def rsStep (st : RSState) (row : Row) : RSState × TraceEntry :=
  let key := halfKey row
  let reset : Bool := decide (st.prevKey ≠ some key ∨ 3 ≤ st.outs)
  let r1 := if reset then 0 else st.r1
  let r2 := if reset then 0 else st.r2
  let r3 := if reset then 0 else st.r3
  let outs := if reset then 0 else st.outs
  let upd := updateRunners r1 r2 r3 row
  ({ r1 := upd.1, r2 := upd.2.1, r3 := upd.2.2,
     outs := outs + outsOnPlayInt row, prevKey := some key },
   { key := key, prevKey := st.prevKey, preOuts := st.outs, didReset := reset,
     emit := (r1, r2, r3), emitOuts := outs })

/-- Initial loop state: `r1 = r2 = r3 = 0`, `outs = 0`, `prev_inning_half = None`. -/
def rsInit : RSState :=
  { r1 := 0, r2 := 0, r3 := 0, outs := 0, prevKey := none }

/-- The whole row loop of `add_runner_states`, returning one trace entry per row. -/
def rsTraceAux (st : RSState) : List Row → List TraceEntry
  | [] => []
  | row :: rest =>
      let p := rsStep st row
      p.2 :: rsTraceAux p.1 rest

/-- Trace of `add_runner_states` started from the initial state. -/
def rsTrace (rows : List Row) : List TraceEntry := rsTraceAux rsInit rows

/-- `add_runner_states`: the `runner_states` column, one pre-pitch
`(RunnerOn1B, RunnerOn2B, RunnerOn3B)` tuple per input row. -/
def add_runner_states (rows : List Row) : List (Int × Int × Int) :=
  (rsTrace rows).map (fun e => e.emit)

/-- `add_game_state`: the f-string
`f"{r1}{r2}{r3}-O{outs}-B{balls}-S{strikes}"` building the `GameState` key. -/
def add_game_state_key (r1 r2 r3 outs balls strikes : Int) : String :=
  toString r1 ++ toString r2 ++ toString r3 ++ "-O" ++ toString outs ++
    "-B" ++ toString balls ++ "-S" ++ toString strikes

/-- Numeric value of a digit character (claims-side decoder helper). -/
def digitVal (c : Char) : Int := (c.toNat : Int) - 48

/-- Decoder for the fixed 12-character `GameState` layout
`[r1][r2][r3]-O[o]-B[b]-S[s]` (each component a single digit on the valid
domain).  Used to state the encode/decode round-trip of the spec. -/
def decodeGameState (s : String) : Option (Int × Int × Int × Int × Int × Int) :=
  match s.data with
  | [a, b, c, '-', 'O', o, '-', 'B', bl, '-', 'S', st] =>
      some (digitVal a, digitVal b, digitVal c, digitVal o, digitVal bl, digitVal st)
  | _ => none

/-- The spec's valid `GameState` domain: occupancy flags in `{0,1}`,
outs in `{0,1,2}`, balls in `{0,1,2,3}`, strikes in `{0,1,2}`. -/
def validState (r1 r2 r3 o b s : Int) : Prop :=
  (0 ≤ r1 ∧ r1 ≤ 1) ∧ (0 ≤ r2 ∧ r2 ≤ 1) ∧ (0 ≤ r3 ∧ r3 ≤ 1) ∧
    (0 ≤ o ∧ o ≤ 2) ∧ (0 ≤ b ∧ b ≤ 3) ∧ (0 ≤ s ∧ s ≤ 2)

instance (r1 r2 r3 o b s : Int) : Decidable (validState r1 r2 r3 o b s) := by
  unfold validState; infer_instance

/-- Round-half-to-even to the nearest integer, the tie-breaking rule of
Python's built-in `round`: on a tie take the even neighbour, otherwise the
nearest integer `⌊q + 1/2⌋` (written with the executable `Rat.floor`). -/
def roundHalfEven (q : Rat) : Int :=
  if q - Rat.floor q = 1 / 2 then
    (if Rat.floor q % 2 = 0 then Rat.floor q else Rat.floor q + 1)
  else Rat.floor (q + 1 / 2)

/-- Python `round(x, 4)`, modelled exactly over the rationals. -/
def pyRound4 (q : Rat) : Rat := (roundHalfEven (q * 10000) : Rat) / 10000

/-- Pairing of each list element with its positional index, starting at `n`:
the model of a dataframe's row index. -/
def idxFrom {α : Type} (n : Nat) : List α → List (Nat × α)
  | [] => []
  | a :: l => (n, a) :: idxFrom (n + 1) l

/-- `df.groupby(key)`: one group per distinct key, each group holding the
rows with that key in their original order (pandas keeps the within-group
order; the order of the groups themselves is immaterial to every consumer
below, so the distinct keys are taken via `dedup`). -/
def groupByKey {α K : Type} [DecidableEq K] (key : α → K) (xs : List α) :
    List (K × List α) :=
  ((xs.map key).dedup).map (fun k => (k, xs.filter (fun x => key x = k)))

/-- The per-group comprehension
`future_runs = [sum(runs[i+1:]) for i in range(len(runs))]` of
`add_runs_remaining`, keeping each row's original index: every indexed row
is paired with the sum of the runs of the rows after it in its group. -/
def futurePairs {α : Type} (runsOf : α → Int) : List (Nat × α) → List (Nat × Int)
  | [] => []
  | p :: rest =>
      (p.1, (rest.map (fun q => runsOf q.2)).sum) :: futurePairs runsOf rest

/-- `add_runs_remaining`: initialize the `RunsRemaining` column to 0, group
the rows by `(Inning, Top/Bottom)`, compute each group's exclusive suffix
sums of `RunsScored` (NaN coerced to 0), and write them back at each group
member's original row index. -/
def add_runs_remaining (rows : List Row) : List Int :=
  let idxd := idxFrom 0 rows
  let groups := groupByKey (fun p => halfKey p.2) idxd
  let pairs := groups.flatMap (fun g => futurePairs runsScoredInt g.2)
  (List.range rows.length).map
    (fun i => ((pairs.find? (fun p => p.1 = i)).map Prod.snd).getD 0)

/-- One enriched pitch record: the input row plus the columns added by
`add_runner_states`, `add_game_state` and `add_runs_remaining`. -/
structure ERow where
  row : Row
  r1 : Int
  r2 : Int
  r3 : Int
  gameState : String
  runsRemaining : Int
deriving DecidableEq, Repr

/-- The enrichment chain `add_runner_states` → `add_game_state` →
`add_runs_remaining` applied to a dataframe: each row is zipped with its
reconstructed runner flags and its runs-remaining value, and the
`GameState` column is built from the flags and the row's count fields. -/
def enrich (rows : List Row) : List ERow :=
  (rows.zip ((add_runner_states rows).zip (add_runs_remaining rows))).map
    (fun p =>
      { row := p.1, r1 := p.2.1.1, r2 := p.2.1.2.1, r3 := p.2.1.2.2,
        gameState := add_game_state_key p.2.1.1 p.2.1.2.1 p.2.1.2.2
          p.1.outs p.1.balls p.1.strikes,
        runsRemaining := p.2.2 })

/-- `df = df[df["Inning"] < 9]`. -/
def inningFilter (file : List Row) : List Row :=
  file.filter (fun r => r.inning < 9)

/-- The pre-aggregation filter
`df[(df["Outs"] <= 2) & (df["Balls"] <= 3) & (df["Strikes"] <= 2)]`,
identical in `build_gamestate_summary_all_years` and
`generate_target_for_month`. -/
def countFilter (r : Row) : Bool :=
  decide (r.outs ≤ 2) && decide (r.balls ≤ 3) && decide (r.strikes ≤ 2)

/-- The per-file processing shared by the summary builder and the label
pipeline: inning filter, enrichment, then the count filter.  Its output is
exactly the set of records that enter the expectancy-table accumulation
(respectively the label pass) for that file. -/
def processFile (file : List Row) : List ERow :=
  (enrich (inningFilter file)).filter (fun e => countFilter e.row)

/-- One per-`GameState` accumulator of the corpus summary:
`{"Count": 0, "TotalRunsRemaining": 0, "ZeroRunsCount": 0}`. -/
structure SAcc where
  count : Nat
  total : Int
  zero : Nat
deriving DecidableEq, Repr

/-- Pointwise update of the `defaultdict` summary at one key. -/
def updAt (m : String → SAcc) (s : String) (f : SAcc → SAcc) : String → SAcc :=
  fun t => if t = s then f (m t) else m t

/-- `df.groupby("GameState")["RunsRemaining"].agg(["count", "sum"])`. -/
def aggCounts (erows : List ERow) : List (String × Nat × Int) :=
  (groupByKey (fun e => e.gameState) erows).map
    (fun g => (g.1, g.2.length, (g.2.map (fun e => e.runsRemaining)).sum))

/-- The per-`GameState` record returned by
`calculate_zero_run_probabilities`. -/
structure ZStats where
  zeroRunsCount : Nat
  totalCount : Nat
  zeroRunProb : Rat
deriving DecidableEq, Repr

/-- `calculate_zero_run_probabilities`: per `GameState`, the number of rows
with `RunsRemaining == 0`, the total number of rows, and
`round(zero_runs / total if total > 0 else 0, 4)`. -/
def calculate_zero_run_probabilities (erows : List ERow) :
    List (String × ZStats) :=
  (groupByKey (fun e => e.gameState) erows).map
    (fun g =>
      let total : Nat := g.2.length
      let zeroRuns : Nat := (g.2.filter (fun e => e.runsRemaining = 0)).length
      let prob : Rat := if 0 < total then (zeroRuns : Rat) / (total : Rat) else 0
      (g.1, { zeroRunsCount := zeroRuns, totalCount := total,
              zeroRunProb := pyRound4 prob }))

/-- The loop `for state, row in agg.iterrows(): summary[state]["Count"] +=
row["count"]; summary[state]["TotalRunsRemaining"] += row["sum"]`. -/
def applyAgg (m : String → SAcc) (entries : List (String × Nat × Int)) :
    String → SAcc :=
  entries.foldl
    (fun acc e => updAt acc e.1
      (fun c => { c with count := c.count + e.2.1, total := c.total + e.2.2 }))
    m

/-- The loop `for state, val in zero_stats.items():
summary[state]["ZeroRunsCount"] += val["ZeroRunsCount"]`. -/
def applyZero (m : String → SAcc) (entries : List (String × ZStats)) :
    String → SAcc :=
  entries.foldl
    (fun acc e => updAt acc e.1
      (fun c => { c with zero := c.zero + e.2.zeroRunsCount }))
    m

/-- Processing of one CSV file inside `build_gamestate_summary_all_years`:
inning filter, `if df.empty: continue`, enrichment, count filter, then the
two accumulation loops over this file's per-state aggregates. -/
def summaryStep (acc : String → SAcc) (file : List Row) : String → SAcc :=
  let dfI := inningFilter file
  if dfI = [] then acc
  else
    let erows := (enrich dfI).filter (fun e => countFilter e.row)
    applyZero (applyAgg acc (aggCounts erows))
      (calculate_zero_run_probabilities erows)

/-- `summary = defaultdict(lambda: {"Count": 0, "TotalRunsRemaining": 0,
"ZeroRunsCount": 0})`. -/
def emptySummary : String → SAcc := fun _ => { count := 0, total := 0, zero := 0 }

/-- The whole corpus accumulation of `build_gamestate_summary_all_years`:
a fold of `summaryStep` over the discovered files (file discovery itself is
external; the files arrive as a list). -/
def buildSummary (files : List (List Row)) : String → SAcc :=
  files.foldl summaryStep emptySummary

/-- Finalization field `"ExpectedRuns": d["TotalRunsRemaining"] / d["Count"]
if d["Count"] else 0` of the combined summary dataframe. -/
def expectedRunsOf (e : SAcc) : Rat :=
  if e.count ≠ 0 then (e.total : Rat) / e.count else 0

/-- Finalization field `"ZeroRunProbability": d["ZeroRunsCount"] /
d["Count"] if d["Count"] else 0` of the combined summary dataframe. -/
def zeroRunProbOf (e : SAcc) : Rat :=
  if e.count ≠ 0 then (e.zero : Rat) / e.count else 0

/-- `shift(-1)` on a column: entry `i` becomes the value at `i + 1`, the
last entry becomes missing (NaN). -/
def shiftUp {α : Type} (xs : List α) : List (Option α) :=
  (List.range xs.length).map (fun i => xs.get? (i + 1))

/-- NaN-propagating subtraction of two float cells. -/
def osub (a b : Option Rat) : Option Rat :=
  match a, b with
  | some x, some y => some (x - y)
  | _, _ => none

/-- The `Target` computation of `generate_target_for_month` (after the
count filter): `ExpectedRuns = GameState.map(table).round(4)`,
`ExpectedRuns_Next = ExpectedRuns.shift(-1)`,
`Top/Bottom_Next = Top/Bottom.shift(-1)`, then per row
`round(0 - ExpectedRuns, 4)` when `Top/Bottom != Top/Bottom_Next`, else
`round(ExpectedRuns_Next - ExpectedRuns, 4)`.  A missing table lookup and a
shifted-past-the-end cell are both NaN (`none`). -/
def targetCol (tbl : String → Option Rat) (rows : List ERow) :
    List (Option Rat) :=
  let er : List (Option Rat) := rows.map (fun r => (tbl r.gameState).map pyRound4)
  let erNext : List (Option Rat) := (shiftUp er).map (fun x => x.join)
  let tbNext : List (Option String) := shiftUp (rows.map (fun r => r.row.topBottom))
  (List.range rows.length).map (fun i =>
    let cur : Option String := (rows.get? i).map (fun r => r.row.topBottom)
    let eC : Option Rat := (er.get? i).join
    let eN : Option Rat := (erNext.get? i).join
    let tN : Option String := (tbNext.get? i).join
    if cur ≠ tN then (osub (some 0) eC).map pyRound4
    else (osub eN eC).map pyRound4)

/-- The per-month label pass: every surviving file contributes one labelled
row per processed record, and the per-file label columns are concatenated. -/
def generateTargets (tbl : String → Option Rat) (files : List (List Row)) :
    List (Option Rat) :=
  (files.map (fun f => targetCol tbl (processFile f))).flatten

/-! Concrete records used by the closed witness and counterexample
theorems below. -/

/-- A quiet pitch: first inning, top, empty count, no play, no runs. -/
def exRow : Row :=
  { inning := 1, topBottom := "Top", outs := 0, balls := 0, strikes := 0,
    playResult := "", korBB := "", pitchCall := "", outsOnPlay := none,
    runsScored := none }

/-- A quiet pitch with a given `RunsScored` cell. -/
def exRowRuns (rs : Option Int) : Row := { exRow with runsScored := rs }

/-- A bases-loaded walk scoring one run. -/
def exRowWalk : Row := { exRow with korBB := "Walk", runsScored := some 1 }

/-- A pitch recording three outs on the play. -/
def exRowOuts3 : Row := { exRow with outsOnPlay := some 3 }

/-- A pitch opening the bottom half of the first inning. -/
def exRowBottom : Row := { exRow with topBottom := "Bottom" }

/-- A row whose `Outs` field is negative: it passes the one-sided
pre-aggregation filter. -/
def exRowNegOuts : Row := { exRow with outs := -1 }

/-- Three-pitch half-inning with runs 0, NaN, 1: runs remaining 1, 1, 0. -/
def exFile : List Row := [exRowRuns (some 0), exRowRuns none, exRowRuns (some 1)]

/-- An enriched row as it reaches the `Target` stage, first half-inning. -/
def exERow0 : ERow :=
  { row := exRow, r1 := 0, r2 := 0, r3 := 0,
    gameState := "000-O0-B0-S0", runsRemaining := 0 }

/-- An enriched row in the top of the second inning: same `Top/Bottom` as
`exERow0` but a different half-inning key. -/
def exERow1 : ERow :=
  { row := { exRow with inning := 2 }, r1 := 0, r2 := 0, r3 := 0,
    gameState := "100-O1-B0-S0", runsRemaining := 0 }

/-- A two-entry expectancy table assigning 1 and 2 expected runs. -/
def exTbl : String → Option Rat :=
  fun s => if s = "000-O0-B0-S0" then some 1
    else if s = "100-O1-B0-S0" then some 2 else none

end ExpectedRuns

namespace ExpectedRuns

/-! Helper lemmas. -/

/-- The executable `Rat.floor` agrees with the floor of the ordered field. -/
theorem ratFloor_eq (q : Rat) : Rat.floor q = ⌊q⌋ := by
  rw [Rat.floor_def', Rat.floor_def]

/-- Round-half-even of an integer is that integer. -/
theorem roundHalfEven_intCast (z : Int) : roundHalfEven (z : Rat) = z := by
  have h1 : ((z : Rat)) - Rat.floor (z : Rat) = 0 := by
    rw [ratFloor_eq, Int.floor_intCast]; ring
  unfold roundHalfEven
  rw [h1]
  norm_num
  rw [ratFloor_eq]
  rw [Int.floor_int_add]
  norm_num

/-- `pyRound4` fixes every rational that is already an integer multiple of
`1/10000`. -/
theorem pyRound4_eq_self {q : Rat} {z : Int} (hz : q * 10000 = (z : Rat)) :
    pyRound4 q = q := by
  unfold pyRound4
  rw [hz, roundHalfEven_intCast, ← hz]
  field_simp

/-- `pyRound4` of a difference of two already-rounded values is exact. -/
theorem pyRound4_sub_round (a b : Rat) :
    pyRound4 (pyRound4 a - pyRound4 b) = pyRound4 a - pyRound4 b := by
  apply pyRound4_eq_self
    (z := roundHalfEven (a * 10000) - roundHalfEven (b * 10000))
  unfold pyRound4
  push_cast
  field_simp

/-- `pyRound4` of the negation of an already-rounded value is exact. -/
theorem pyRound4_neg_round (a : Rat) :
    pyRound4 (-pyRound4 a) = -pyRound4 a := by
  apply pyRound4_eq_self (z := -roundHalfEven (a * 10000))
  unfold pyRound4
  push_cast
  field_simp

/-- The trace has one entry per input row. -/
theorem rsTraceAux_length (st : RSState) (rows : List Row) :
    (rsTraceAux st rows).length = rows.length := by
  induction rows generalizing st with
  | nil => rfl
  | cons r rest ih => simp [rsTraceAux, ih]

/-- The scorer-removal loop is a no-op on empty bases, for any number of
iterations. -/
theorem removeScorersN_empty (n : Nat) : removeScorersN 0 0 0 n = (0, 0, 0) := by
  induction n with
  | zero => rfl
  | succ n ih => simpa [removeScorersN, removeOneScorer] using ih

/-- Every trace entry's fields are internally consistent: the reset flag is
the reset condition evaluated on the entry's own `prevKey`/`preOuts`, and
the emitted out count is 0 after a reset and `preOuts` otherwise. -/
theorem rsTraceAux_entry_shape (rows : List Row) (st : RSState) :
    ∀ e ∈ rsTraceAux st rows,
      e.didReset = decide (e.prevKey ≠ some e.key ∨ 3 ≤ e.preOuts) ∧
        e.emitOuts = (if e.didReset = true then 0 else e.preOuts) := by
  induction rows generalizing st with
  | nil => intro e he; simp [rsTraceAux] at he
  | cons r rest ih =>
      intro e he
      simp only [rsTraceAux, List.mem_cons] at he
      rcases he with rfl | he
      · exact ⟨rfl, rfl⟩
      · exact ih _ e he

/-- `idxFrom` distributes over appending, shifting the start index. -/
theorem idxFrom_append {α : Type} (l1 l2 : List α) :
    ∀ n, idxFrom n (l1 ++ l2) = idxFrom n l1 ++ idxFrom (n + l1.length) l2 := by
  induction l1 with
  | nil => intro n; simp [idxFrom]
  | cons a l ih =>
      intro n
      have h : n + 1 + l.length = n + (l.length + 1) := by omega
      simp only [List.cons_append, idxFrom, List.append_eq, ih (n + 1), h,
        List.length_cons]

/-- Every indexed element's index lies in the covered range. -/
theorem mem_idxFrom_bounds {α : Type} (l : List α) :
    ∀ n, ∀ p ∈ idxFrom n l, n ≤ p.1 ∧ p.1 < n + l.length := by
  induction l with
  | nil => intro n p hp; simp [idxFrom] at hp
  | cons a l ih =>
      intro n p hp
      simp only [idxFrom, List.mem_cons] at hp
      rcases hp with rfl | hp
      · simp
      · have := ih (n + 1) p hp
        constructor <;> [omega; (simp only [List.length_cons]; omega)]

/-- An indexed element recovers the list entry at its index. -/
theorem mem_idxFrom_get? {α : Type} (l : List α) :
    ∀ n, ∀ p ∈ idxFrom n l, l.get? (p.1 - n) = some p.2 := by
  induction l with
  | nil => intro n p hp; simp [idxFrom] at hp
  | cons a l ih =>
      intro n p hp
      simp only [idxFrom, List.mem_cons] at hp
      rcases hp with rfl | hp
      · simp
      · have hb := (mem_idxFrom_bounds l (n + 1) p hp).1
        have := ih (n + 1) p hp
        have hs : p.1 - n = (p.1 - (n + 1)) + 1 := by omega
        rw [hs]
        simpa using this

/-- A list entry appears in `idxFrom` at its index. -/
theorem get?_mem_idxFrom {α : Type} (l : List α) :
    ∀ n j x, l.get? j = some x → (n + j, x) ∈ idxFrom n l := by
  induction l with
  | nil => intro n j x h; simp at h
  | cons a l ih =>
      intro n j x h
      cases j with
      | zero =>
          simp only [List.get?] at h
          cases h
          simp [idxFrom]
      | succ j =>
          simp only [List.get?] at h
          have := ih (n + 1) j x h
          have hs : n + (j + 1) = (n + 1) + j := by omega
          rw [hs]
          simp [idxFrom, this]

/-- Filtering an indexed list by a predicate on the values and dropping the
indices is filtering the underlying list. -/
theorem idxFrom_filter_map_snd {α : Type} (Q : α → Bool) (l : List α) :
    ∀ n, ((idxFrom n l).filter (fun p => Q p.2)).map Prod.snd = l.filter Q := by
  induction l with
  | nil => intro n; simp [idxFrom]
  | cons a l ih =>
      intro n
      simp only [idxFrom, List.filter_cons]
      by_cases hq : Q a
      · simp [hq, ih (n + 1)]
      · simp [hq, ih (n + 1)]

/-- `futurePairs` keeps the original indices, in order. -/
theorem futurePairs_map_fst {α : Type} (f : α → Int) (l : List (Nat × α)) :
    (futurePairs f l).map Prod.fst = l.map Prod.fst := by
  induction l with
  | nil => rfl
  | cons p rest ih => simp [futurePairs, ih]

/-- `find?` skips an initial segment on which the predicate fails. -/
theorem find?_append_none {α : Type} (p : α → Bool) (l1 l2 : List α)
    (h : ∀ x ∈ l1, p x = false) :
    List.find? p (l1 ++ l2) = List.find? p l2 := by
  induction l1 with
  | nil => rfl
  | cons a l ih =>
      simp only [List.cons_append, List.find?]
      rw [h a (List.mem_cons_self a l)]
      exact ih fun x hx => h x (List.mem_cons_of_mem a hx)

/-- A `find?` hit in the first segment survives appending. -/
theorem find?_append_some {α : Type} (p : α → Bool) (l1 l2 : List α) (a : α)
    (h : List.find? p l1 = some a) :
    List.find? p (l1 ++ l2) = some a := by
  induction l1 with
  | nil => simp at h
  | cons b l ih =>
      simp only [List.cons_append, List.find?]
      simp only [List.find?] at h
      cases hb : p b with
      | true => rw [hb] at h; exact h
      | false => rw [hb] at h; exact ih h

/-- `find?` on the future-pairs of a concatenation skips the pairs coming
from an initial segment whose indices all fail the predicate. -/
theorem find?_futurePairs_skip {α : Type} (f : α → Int) (i : Nat)
    (xs ys : List (Nat × α)) (h : ∀ q ∈ xs, ¬q.1 = i) :
    List.find? (fun p => p.1 = i) (futurePairs f (xs ++ ys)) =
      List.find? (fun p => p.1 = i) (futurePairs f ys) := by
  induction xs with
  | nil => rfl
  | cons q rest ih =>
      simp only [List.cons_append, futurePairs, List.find?]
      have hq : (decide (q.1 = i)) = false := by
        simp [h q (List.mem_cons_self q rest)]
      rw [hq]
      exact ih fun x hx => h x (List.mem_cons_of_mem q hx)

/-- In the flattened per-group future-pairs of an indexed list, the entry
found at index `i` carries the sum of the runs of the later members of
`i`'s own group: the groups of all other keys cannot contain index `i`, and
within `i`'s group the members before `(i, ri)` have smaller indices. -/
theorem find?_groupByKey_futurePairs {α K : Type} [DecidableEq K]
    (key : α → K) (f : α → Int) (xs : List (Nat × α)) (i : Nat) (ri : α)
    (A B : List (Nat × α))
    (hmem_get : ∀ q ∈ xs, q.1 = i → q.2 = ri)
    (hfilter : xs.filter (fun x => key x.2 = key ri) = A ++ (i, ri) :: B)
    (hA : ∀ q ∈ A, ¬q.1 = i) :
    ((groupByKey (fun p => key p.2) xs).flatMap
        (fun g => futurePairs f g.2)).find? (fun p => p.1 = i) =
      some (i, ((B.map Prod.snd).map f).sum) := by
  have hmemfil : (i, ri) ∈ xs.filter (fun x => key x.2 = key ri) := by
    rw [hfilter]
    exact List.mem_append_right A (List.mem_cons_self _ _)
  have hmemxs : (i, ri) ∈ xs := (List.mem_filter.mp hmemfil).1
  have hk0 : key ri ∈ (xs.map (fun p => key p.2)).dedup :=
    List.mem_dedup.mpr (List.mem_map.mpr ⟨(i, ri), hmemxs, rfl⟩)
  obtain ⟨K1, K2, hK⟩ := List.append_of_mem hk0
  have hnd := List.nodup_dedup (xs.map (fun p => key p.2))
  rw [hK] at hnd
  have hK1 : key ri ∉ K1 := fun h =>
    (List.nodup_append.mp hnd).2.2 h (List.mem_cons_self _ _)
  simp only [groupByKey]
  rw [hK, List.map_append, List.map_cons, List.flatMap_append, List.flatMap_cons]
  rw [find?_append_none]
  · rw [hfilter]
    apply find?_append_some
    rw [find?_futurePairs_skip f i A ((i, ri) :: B) hA]
    simp only [futurePairs, List.find?, decide_True]
    rw [List.map_map]
    rfl
  · intro x hx
    obtain ⟨gk, hgk, hxin⟩ := List.mem_flatMap.mp hx
    obtain ⟨k, hkK1, rfl⟩ := List.mem_map.mp hgk
    have hx1 : x.1 ∈ (xs.filter (fun q => key q.2 = k)).map Prod.fst := by
      rw [← futurePairs_map_fst f]
      exact List.mem_map_of_mem Prod.fst hxin
    obtain ⟨q, hqfil, hq1⟩ := List.mem_map.mp hx1
    have hqxs := (List.mem_filter.mp hqfil).1
    have hqk : key q.2 = k := by
      have := (List.mem_filter.mp hqfil).2
      simpa using this
    simp only [decide_eq_false_iff_not]
    intro hxi
    have hqi : q.1 = i := by rw [hq1, hxi]
    have hqri : q.2 = ri := hmem_get q hqxs hqi
    rw [hqri] at hqk
    exact hK1 (hqk ▸ hkK1)

/-- An index holding a value is in range. -/
theorem getElem?_some_lt {α : Type} {l : List α} {i : Nat} {a : α}
    (h : l[i]? = some a) : i < l.length := by
  by_contra hc
  rw [List.getElem?_eq_none (by omega)] at h
  exact Option.noConfusion h

/-- Entry `i` of a shifted column is the source entry `i + 1` (missing past
the end). -/
theorem shiftUp_getElem? {α : Type} (xs : List α) (i : Nat) (h : i < xs.length) :
    (shiftUp xs)[i]? = some xs[i + 1]? := by
  unfold shiftUp
  rw [List.getElem?_map, List.getElem?_range h]
  simp [List.get?_eq_getElem?]

/-- Entry `i` of the `Target` column, written in terms of the row at `i`
and the row at `i + 1`. -/
theorem targetCol_getElem? (tbl : String → Option Rat) (rows : List ERow)
    (i : Nat) (h : i < rows.length) :
    (targetCol tbl rows)[i]? = some (
      if rows[i]?.map (fun r => r.row.topBottom) ≠
          rows[i + 1]?.map (fun r => r.row.topBottom) then
        (osub (some 0)
          ((rows[i]?.map (fun r => (tbl r.gameState).map pyRound4)).join)).map
            pyRound4
      else
        (osub ((rows[i + 1]?.map
              (fun r => (tbl r.gameState).map pyRound4)).join)
            ((rows[i]?.map
              (fun r => (tbl r.gameState).map pyRound4)).join)).map pyRound4) := by
  have hmap : i < (rows.map (fun r => (tbl r.gameState).map pyRound4)).length := by
    rw [List.length_map]; exact h
  have htb : i < (rows.map (fun r => r.row.topBottom)).length := by
    rw [List.length_map]; exact h
  simp only [targetCol]
  rw [List.getElem?_map, List.getElem?_range h]
  simp only [Option.map_some']
  congr 1
  simp [List.getElem?_map, shiftUp_getElem? _ _ hmap, shiftUp_getElem? _ _ htb,
    List.get?_eq_getElem?]

/-- Pointwise effect of the count/sum accumulation loop: at every key the
counter gains the sum of the matching entries' counts and sums. -/
theorem applyAgg_apply (entries : List (String × Nat × Int)) :
    ∀ (m : String → SAcc) (s : String),
      applyAgg m entries s =
        { count := (m s).count +
            ((entries.filter (fun e => e.1 = s)).map (fun e => e.2.1)).sum,
          total := (m s).total +
            ((entries.filter (fun e => e.1 = s)).map (fun e => e.2.2)).sum,
          zero := (m s).zero } := by
  induction entries with
  | nil => intro m s; simp [applyAgg]
  | cons e rest ih =>
      intro m s
      simp only [applyAgg, List.foldl_cons] at ih ⊢
      rw [ih]
      by_cases he : e.1 = s
      · simp only [updAt, he, List.filter_cons, decide_True, List.map_cons,
          List.sum_cons, if_pos rfl]
        simp [SAcc.mk.injEq, Nat.add_assoc, Int.add_assoc]
      · have hd : (decide (e.1 = s)) = false := by simp [he]
        simp only [updAt, List.filter_cons, hd]
        rw [if_neg (fun hc => he hc.symm)]
        simp

/-- Pointwise effect of the zero-count accumulation loop. -/
theorem applyZero_apply (entries : List (String × ZStats)) :
    ∀ (m : String → SAcc) (s : String),
      applyZero m entries s =
        { count := (m s).count, total := (m s).total,
          zero := (m s).zero +
            ((entries.filter (fun e => e.1 = s)).map
              (fun e => e.2.zeroRunsCount)).sum } := by
  induction entries with
  | nil => intro m s; simp [applyZero]
  | cons e rest ih =>
      intro m s
      simp only [applyZero, List.foldl_cons] at ih ⊢
      rw [ih]
      by_cases he : e.1 = s
      · simp only [updAt, he, List.filter_cons, decide_True, List.map_cons,
          List.sum_cons, if_pos rfl]
        simp [SAcc.mk.injEq, Nat.add_assoc]
      · have hd : (decide (e.1 = s)) = false := by simp [he]
        simp only [updAt, List.filter_cons, hd]
        rw [if_neg (fun hc => he hc.symm)]
        simp

/-- A keyed list built over distinct keys has at most one entry per key. -/
theorem filter_keys_map {K β : Type} [DecidableEq K] (v : K → β) (s : K) :
    ∀ keys : List K, keys.Nodup →
      (keys.map (fun k => (k, v k))).filter (fun e => e.1 = s) =
        (if s ∈ keys then [(s, v s)] else []) := by
  intro keys
  induction keys with
  | nil => intro _; simp
  | cons k rest ih =>
      intro hn
      rw [List.nodup_cons] at hn
      simp only [List.map_cons, List.filter_cons]
      by_cases hk : k = s
      · subst hk
        rw [if_pos (List.mem_cons_self _ _)]
        simp only [decide_True]
        rw [ih hn.2, if_neg hn.1]
        simp
      · have hd : (decide (k = s)) = false := by simp [hk]
        rw [hd]
        simp only [Bool.false_eq_true, if_false]
        rw [ih hn.2]
        by_cases hs : s ∈ rest
        · rw [if_pos hs, if_pos (List.mem_cons_of_mem _ hs)]
        · rw [if_neg hs, if_neg (by
            simp only [List.mem_cons, not_or]
            exact ⟨fun h => hk h.symm, hs⟩)]

/-- The per-file aggregate as a keyed list over the distinct states. -/
theorem aggCounts_eq (erows : List ERow) :
    aggCounts erows = ((erows.map (fun e => e.gameState)).dedup).map
      (fun k => (k, (erows.filter (fun e => e.gameState = k)).length,
        ((erows.filter (fun e => e.gameState = k)).map
          (fun e => e.runsRemaining)).sum)) := by
  simp only [aggCounts, groupByKey, List.map_map]
  rfl

/-- The zero-run statistics as a keyed list over the distinct states. -/
theorem calcZero_eq (erows : List ERow) :
    calculate_zero_run_probabilities erows =
      ((erows.map (fun e => e.gameState)).dedup).map
        (fun k => (k,
          ({ zeroRunsCount := ((erows.filter (fun e => e.gameState = k)).filter
              (fun e => e.runsRemaining = 0)).length,
             totalCount := (erows.filter (fun e => e.gameState = k)).length,
             zeroRunProb := pyRound4
               (if 0 < (erows.filter (fun e => e.gameState = k)).length then
                 (((erows.filter (fun e => e.gameState = k)).filter
                     (fun e => e.runsRemaining = 0)).length : Rat) /
                   ((erows.filter (fun e => e.gameState = k)).length : Rat)
               else 0) } : ZStats))) := by
  simp only [calculate_zero_run_probabilities, groupByKey, List.map_map]
  rfl

/-- A state absent from the distinct-state list has no matching rows. -/
theorem filter_gameState_nil (erows : List ERow) (s : String)
    (hs : s ∉ (erows.map (fun e => e.gameState)).dedup) :
    erows.filter (fun e => e.gameState = s) = [] := by
  rw [List.filter_eq_nil]
  intro e he
  simp only [decide_eq_true_eq]
  intro heq
  exact hs (List.mem_dedup.mpr (List.mem_map.mpr ⟨e, he, heq⟩))

/-- Pointwise effect of one file on the corpus summary: at every state, the
count gains the number of that file's processed records in the state, the
total gains their runs-remaining sum, and the zero count gains the number
of them with zero runs remaining. -/
theorem summaryStep_apply (acc : String → SAcc) (file : List Row) (s : String) :
    summaryStep acc file s =
      { count := (acc s).count +
          ((processFile file).filter (fun e => e.gameState = s)).length,
        total := (acc s).total +
          (((processFile file).filter (fun e => e.gameState = s)).map
            (fun e => e.runsRemaining)).sum,
        zero := (acc s).zero +
          (((processFile file).filter (fun e => e.gameState = s)).filter
            (fun e => e.runsRemaining = 0)).length } := by
  unfold summaryStep
  by_cases hdf : inningFilter file = []
  · rw [if_pos hdf]
    have hpf : processFile file = [] := by
      unfold processFile
      rw [hdf]
      rfl
    simp [hpf]
  · rw [if_neg hdf]
    have hpf : (enrich (inningFilter file)).filter (fun e => countFilter e.row) =
        processFile file := rfl
    rw [hpf, applyZero_apply, applyAgg_apply, aggCounts_eq, calcZero_eq]
    rw [filter_keys_map _ s _ (List.nodup_dedup _),
      filter_keys_map _ s _ (List.nodup_dedup _)]
    by_cases hs : s ∈ ((processFile file).map (fun e => e.gameState)).dedup
    · rw [if_pos hs, if_pos hs]
      simp
    · rw [if_neg hs, if_neg hs]
      rw [filter_gameState_nil _ s hs]
      simp

/-- The corpus fold accumulates, per state, the per-file contributions. -/
theorem foldl_summaryStep_apply (files : List (List Row)) :
    ∀ (acc : String → SAcc) (s : String),
      (files.foldl summaryStep acc) s =
        { count := (acc s).count + (files.map (fun f =>
            ((processFile f).filter (fun e => e.gameState = s)).length)).sum,
          total := (acc s).total + (files.map (fun f =>
            (((processFile f).filter (fun e => e.gameState = s)).map
              (fun e => e.runsRemaining)).sum)).sum,
          zero := (acc s).zero + (files.map (fun f =>
            (((processFile f).filter (fun e => e.gameState = s)).filter
              (fun e => e.runsRemaining = 0)).length)).sum } := by
  induction files with
  | nil => intro acc s; simp
  | cons f rest ih =>
      intro acc s
      rw [List.foldl_cons, ih, summaryStep_apply]
      simp only [List.map_cons, List.sum_cons, SAcc.mk.injEq]
      refine ⟨by omega, by omega, by omega⟩

/-- On the valid domain the encoder's 12-character key decodes back to the
encoded tuple (all six components are single digits there). -/
theorem decode_encode (r1 r2 r3 o b s : Int) (h : validState r1 r2 r3 o b s) :
    decodeGameState (add_game_state_key r1 r2 r3 o b s) =
      some (r1, r2, r3, o, b, s) := by
  obtain ⟨⟨h1, h1'⟩, ⟨h2, h2'⟩, ⟨h3, h3'⟩, ⟨h4, h4'⟩, ⟨h5, h5'⟩, ⟨h6, h6'⟩⟩ := h
  interval_cases r1 <;> interval_cases r2 <;> interval_cases r3 <;>
    interval_cases o <;> interval_cases b <;> interval_cases s <;> decide

end ExpectedRuns

namespace ExpectedRuns

/-! Claim theorems. -/

/-- C10: `add_runner_states` is total and emits exactly one pre-pitch
runner tuple per input row; the scorer-removal loop runs exactly
`runs_scored` iterations even when the bases cannot supply that many
runners, an empty-bases iteration being a no-op rather than a stall. -/
theorem add_runner_states_total (rows : List Row) :
    (add_runner_states rows).length = rows.length ∧
      ∀ runs : Int, removeScorers 0 0 0 runs = (0, 0, 0) := by
  constructor
  · unfold add_runner_states rsTrace
    rw [List.length_map, rsTraceAux_length]
  · intro runs
    unfold removeScorers
    exact removeScorersN_empty _

/-- C7: from a bases-loaded state, a walk/hit-by-pitch with `RunsScored = 1`
and no recognized hit `PlayResult` first clears third base in the
scorer-removal step, and the forced-advancement step then refills it, so
the post-event runner state is again bases loaded. -/
theorem walk_bases_loaded (row : Row)
    (hpr : row.playResult ∉ (["Single", "Double", "Triple", "HomeRun"] : List String))
    (hw : isWalkRow row = true) (hr : runsScoredInt row = 1) :
    removeScorers 1 1 1 (runsScoredInt row) = (1, 1, 0) ∧
      updateRunners 1 1 1 row = (1, 1, 1) := by
  simp only [List.mem_cons, List.mem_singleton, not_or] at hpr
  obtain ⟨h1, h2, h3, h4, _⟩ := hpr
  have hrem : removeScorers 1 1 1 (runsScoredInt row) = (1, 1, 0) := by
    rw [hr]; decide
  refine ⟨hrem, ?_⟩
  unfold updateRunners
  rw [hrem]
  simp [applyPlayResult, h1, h2, h3, h4, hw]

/-- C7 witness: a concrete bases-loaded walk scoring one run. -/
theorem walk_bases_loaded_witness :
    (exRowWalk.playResult ∉ (["Single", "Double", "Triple", "HomeRun"] : List String)) ∧
      isWalkRow exRowWalk = true ∧ runsScoredInt exRowWalk = 1 ∧
      (removeScorers 1 1 1 (runsScoredInt exRowWalk) = (1, 1, 0) ∧
        updateRunners 1 1 1 exRowWalk = (1, 1, 1)) :=
  ⟨by decide, by decide, by decide,
    walk_bases_loaded exRowWalk (by decide) (by decide) (by decide)⟩

/-- C9: if the internal out counter reaches 3 only at half-inning
transitions, then the reconstructor resets the counter exactly at the
half-inning transitions (and nowhere else), and every emitted pre-pitch
state sees an out counter of at most 2. -/
theorem outs_reset_invariant (rows : List Row)
    (H : ∀ e ∈ rsTrace rows, 3 ≤ e.preOuts → e.prevKey ≠ some e.key) :
    ∀ e ∈ rsTrace rows,
      (e.didReset = true ↔ e.prevKey ≠ some e.key) ∧ e.emitOuts ≤ 2 := by
  intro e he
  obtain ⟨hd, ho⟩ := rsTraceAux_entry_shape rows rsInit e he
  have hH := H e he
  constructor
  · rw [hd]
    simp only [decide_eq_true_eq]
    constructor
    · rintro (h | h)
      · exact h
      · exact hH h
    · exact fun h => Or.inl h
  · rw [ho]
    by_cases hres : e.didReset = true
    · rw [if_pos hres]; decide
    · rw [if_neg hres]
      rw [hd] at hres
      simp only [decide_eq_true_eq, not_or, not_le] at hres
      omega

/-- C2: `add_runs_remaining` assigns to each row the exclusive suffix sum
of `RunsScored` over the strictly later rows with the same
`(Inning, Top/Bottom)` key; in particular the last pitch of every
half-inning (no later row shares its key) receives 0. -/
theorem add_runs_remaining_spec (rows : List Row) (i : Nat) (ri : Row)
    (hi : rows.get? i = some ri) :
    (add_runs_remaining rows).get? i =
        some ((((rows.drop (i + 1)).filter
          (fun r => halfKey r = halfKey ri)).map runsScoredInt).sum) ∧
      ((rows.drop (i + 1)).filter (fun r => halfKey r = halfKey ri) = [] →
        (add_runs_remaining rows).get? i = some 0) := by
  have hilen : i < rows.length := by
    by_contra h
    rw [List.get?_eq_none.mpr (by omega)] at hi
    exact Option.noConfusion hi
  have htd : rows.take (i + 1) ++ rows.drop (i + 1) = rows :=
    List.take_append_drop _ _
  have hts : rows.take (i + 1) = rows.take i ++ [ri] := by
    rw [List.take_succ]
    have hgi : rows[i]? = some ri := by rw [← List.get?_eq_getElem?]; exact hi
    rw [hgi]
    rfl
  have hlen_ti : (rows.take i).length = i := by
    rw [List.length_take]; omega
  have hidxd : idxFrom 0 rows =
      idxFrom 0 (rows.take i) ++
        ((i, ri) :: idxFrom (i + 1) (rows.drop (i + 1))) := by
    conv_lhs => rw [← htd, hts]
    rw [idxFrom_append, idxFrom_append]
    simp [idxFrom, hlen_ti, List.append_assoc]
  have hfilter : (idxFrom 0 rows).filter (fun x => halfKey x.2 = halfKey ri) =
      ((idxFrom 0 (rows.take i)).filter (fun x => halfKey x.2 = halfKey ri)) ++
        (i, ri) :: ((idxFrom (i + 1) (rows.drop (i + 1))).filter
          (fun x => halfKey x.2 = halfKey ri)) := by
    rw [hidxd, List.filter_append, List.filter_cons]
    simp
  have hA : ∀ q ∈ (idxFrom 0 (rows.take i)).filter
      (fun x => halfKey x.2 = halfKey ri), ¬q.1 = i := by
    intro q hq
    have hb := mem_idxFrom_bounds (rows.take i) 0 q (List.mem_filter.mp hq).1
    rw [hlen_ti] at hb
    omega
  have hmem_get : ∀ q ∈ idxFrom 0 rows, q.1 = i → q.2 = ri := by
    intro q hq hqi
    have := mem_idxFrom_get? rows 0 q hq
    rw [Nat.sub_zero, hqi, hi] at this
    exact (Option.some.inj this).symm
  have hfind := find?_groupByKey_futurePairs halfKey runsScoredInt
    (idxFrom 0 rows) i ri _ _ hmem_get hfilter hA
  have hsnd : (((idxFrom (i + 1) (rows.drop (i + 1))).filter
      (fun x => halfKey x.2 = halfKey ri)).map Prod.snd) =
      (rows.drop (i + 1)).filter (fun r => halfKey r = halfKey ri) :=
    idxFrom_filter_map_snd (fun r => decide (halfKey r = halfKey ri))
      (rows.drop (i + 1)) (i + 1)
  have hmain : (add_runs_remaining rows).get? i =
      some ((((rows.drop (i + 1)).filter
        (fun r => halfKey r = halfKey ri)).map runsScoredInt).sum) := by
    simp only [add_runs_remaining]
    rw [List.get?_map, List.get?_range hilen]
    simp only [Option.map_some']
    rw [hfind]
    rw [hsnd]
    rfl
  refine ⟨hmain, fun hempty => ?_⟩
  rw [hmain, hempty]
  rfl

/-- C2 witness: the first pitch of a three-pitch half-inning with later
runs NaN and 1 receives the suffix sum 1. -/
theorem add_runs_remaining_spec_witness :
    exFile.get? 0 = some (exRowRuns (some 0)) ∧
      ((add_runs_remaining exFile).get? 0 =
          some ((((exFile.drop 1).filter
            (fun r => halfKey r = halfKey (exRowRuns (some 0)))).map
              runsScoredInt).sum) ∧
        ((exFile.drop 1).filter
            (fun r => halfKey r = halfKey (exRowRuns (some 0))) = [] →
          (add_runs_remaining exFile).get? 0 = some 0)) :=
  ⟨by decide, add_runs_remaining_spec exFile 0 (exRowRuns (some 0)) (by decide)⟩

/-- C3: the corpus summary accumulates raw counts and sums and divides only
at finalization, so for any split of the corpus into two shards the
`ExpectedRuns` of the merge equals `(T1 + T2) / (N1 + N2)` (the per-shard
counts and future-run totals), and the merged accumulator is independent of
the order of the shards. -/
theorem buildSummary_merge (F1 F2 : List (List Row)) (s : String)
    (h : (buildSummary F1 s).count + (buildSummary F2 s).count ≠ 0) :
    expectedRunsOf (buildSummary (F1 ++ F2) s) =
        (((buildSummary F1 s).total + (buildSummary F2 s).total : Int) : Rat) /
          (((buildSummary F1 s).count + (buildSummary F2 s).count : Nat) : Rat) ∧
      buildSummary (F1 ++ F2) s = buildSummary (F2 ++ F1) s := by
  have hsum : ∀ L : List (List Row), buildSummary L s =
      { count := (L.map (fun f =>
          ((processFile f).filter (fun e => e.gameState = s)).length)).sum,
        total := (L.map (fun f =>
          (((processFile f).filter (fun e => e.gameState = s)).map
            (fun e => e.runsRemaining)).sum)).sum,
        zero := (L.map (fun f =>
          (((processFile f).filter (fun e => e.gameState = s)).filter
            (fun e => e.runsRemaining = 0)).length)).sum } := by
    intro L
    unfold buildSummary
    rw [foldl_summaryStep_apply]
    simp [emptySummary]
  have hb12 : buildSummary (F1 ++ F2) s =
      { count := (buildSummary F1 s).count + (buildSummary F2 s).count,
        total := (buildSummary F1 s).total + (buildSummary F2 s).total,
        zero := (buildSummary F1 s).zero + (buildSummary F2 s).zero } := by
    rw [hsum (F1 ++ F2), hsum F1, hsum F2]
    simp [List.map_append, List.sum_append]
  have hb21 : buildSummary (F2 ++ F1) s =
      { count := (buildSummary F2 s).count + (buildSummary F1 s).count,
        total := (buildSummary F2 s).total + (buildSummary F1 s).total,
        zero := (buildSummary F2 s).zero + (buildSummary F1 s).zero } := by
    rw [hsum (F2 ++ F1), hsum F1, hsum F2]
    simp [List.map_append, List.sum_append]
  constructor
  · rw [hb12]
    unfold expectedRunsOf
    rw [if_pos (by simpa using h)]
  · rw [hb12, hb21]
    simp only [SAcc.mk.injEq]
    refine ⟨by omega, by omega, by omega⟩

/-- C3 witness: two single-file shards of the same three-pitch file. -/
theorem buildSummary_merge_witness :
    ((buildSummary [exFile] "000-O0-B0-S0").count +
        (buildSummary [exFile] "000-O0-B0-S0").count ≠ 0) ∧
      (expectedRunsOf (buildSummary ([exFile] ++ [exFile]) "000-O0-B0-S0") =
          (((buildSummary [exFile] "000-O0-B0-S0").total +
              (buildSummary [exFile] "000-O0-B0-S0").total : Int) : Rat) /
            (((buildSummary [exFile] "000-O0-B0-S0").count +
              (buildSummary [exFile] "000-O0-B0-S0").count : Nat) : Rat) ∧
        buildSummary ([exFile] ++ [exFile]) "000-O0-B0-S0" =
          buildSummary ([exFile] ++ [exFile]) "000-O0-B0-S0") :=
  ⟨by decide,
    buildSummary_merge [exFile] [exFile] "000-O0-B0-S0" (by decide)⟩

/-- C8: the `GameState` encoder is total over the valid domain (every valid
tuple yields a well-formed key, witnessed by the decoder round-trip) and
injective (distinct valid tuples never produce the same key). -/
theorem add_game_state_key_injective
    (r1 r2 r3 o b s r1' r2' r3' o' b' s' : Int)
    (hx : validState r1 r2 r3 o b s) (hy : validState r1' r2' r3' o' b' s') :
    decodeGameState (add_game_state_key r1 r2 r3 o b s) =
        some (r1, r2, r3, o, b, s) ∧
      (add_game_state_key r1 r2 r3 o b s =
          add_game_state_key r1' r2' r3' o' b' s' →
        (r1, r2, r3, o, b, s) = (r1', r2', r3', o', b', s')) := by
  refine ⟨decode_encode r1 r2 r3 o b s hx, fun heq => ?_⟩
  have e1 := decode_encode r1 r2 r3 o b s hx
  have e2 := decode_encode r1' r2' r3' o' b' s' hy
  rw [heq, e2] at e1
  exact (Option.some.inj e1).symm

/-- C8 witness: the round-trip and injectivity instantiated at the states
`101-O2-B1-S2` and `000-O0-B0-S0`. -/
theorem add_game_state_key_injective_witness :
    validState 1 0 1 2 1 2 ∧ validState 0 0 0 0 0 0 ∧
      (decodeGameState (add_game_state_key 1 0 1 2 1 2) =
          some (1, 0, 1, 2, 1, 2) ∧
        (add_game_state_key 1 0 1 2 1 2 = add_game_state_key 0 0 0 0 0 0 →
          ((1 : Int), (0 : Int), (1 : Int), (2 : Int), (1 : Int), (2 : Int)) =
            (0, 0, 0, 0, 0, 0))) :=
  ⟨by decide, by decide,
    add_game_state_key_injective 1 0 1 2 1 2 0 0 0 0 0 0 (by decide) (by decide)⟩

/-- C9 witness: two rows, the first recording three outs on its play and
the second opening the next half-inning, so the counter reaches 3 exactly
at a half-inning transition. -/
theorem outs_reset_invariant_witness :
    (∀ e ∈ rsTrace [exRowOuts3, exRowBottom], 3 ≤ e.preOuts → e.prevKey ≠ some e.key) ∧
      ∀ e ∈ rsTrace [exRowOuts3, exRowBottom],
        (e.didReset = true ↔ e.prevKey ≠ some e.key) ∧ e.emitOuts ≤ 2 :=
  ⟨by decide, outs_reset_invariant [exRowOuts3, exRowBottom] (by decide)⟩

/-- C4 (amended): every record entering the expectancy-table accumulation
or the label pass satisfies `Outs ≤ 2`, `Balls ≤ 3`, `Strikes ≤ 2` — the
filter imposes only these upper bounds, so the claimed memberships
`Outs ∈ {0,1,2}`, `Balls ∈ {0,1,2,3}`, `Strikes ∈ {0,1,2}` hold exactly
when the fields are additionally nonnegative. -/
theorem processFile_count_bounds (file : List Row) (e : ERow)
    (he : e ∈ processFile file) :
    (e.row.outs ≤ 2 ∧ e.row.balls ≤ 3 ∧ e.row.strikes ≤ 2) ∧
      (0 ≤ e.row.outs → 0 ≤ e.row.balls → 0 ≤ e.row.strikes →
        (e.row.outs = 0 ∨ e.row.outs = 1 ∨ e.row.outs = 2) ∧
          (e.row.balls = 0 ∨ e.row.balls = 1 ∨ e.row.balls = 2 ∨ e.row.balls = 3) ∧
          (e.row.strikes = 0 ∨ e.row.strikes = 1 ∨ e.row.strikes = 2)) := by
  unfold processFile at he
  have hf := (List.mem_filter.mp he).2
  unfold countFilter at hf
  simp only [Bool.and_eq_true, decide_eq_true_eq] at hf
  obtain ⟨⟨h1, h2⟩, h3⟩ := hf
  exact ⟨⟨h1, h2, h3⟩, fun o b st => ⟨by omega, by omega, by omega⟩⟩

/-- C4 witness: a quiet in-range pitch survives the filter and satisfies
the bounds. -/
theorem processFile_count_bounds_witness :
    exERow0 ∈ processFile [exRow] ∧
      ((exERow0.row.outs ≤ 2 ∧ exERow0.row.balls ≤ 3 ∧ exERow0.row.strikes ≤ 2) ∧
        (0 ≤ exERow0.row.outs → 0 ≤ exERow0.row.balls → 0 ≤ exERow0.row.strikes →
          (exERow0.row.outs = 0 ∨ exERow0.row.outs = 1 ∨ exERow0.row.outs = 2) ∧
            (exERow0.row.balls = 0 ∨ exERow0.row.balls = 1 ∨
              exERow0.row.balls = 2 ∨ exERow0.row.balls = 3) ∧
            (exERow0.row.strikes = 0 ∨ exERow0.row.strikes = 1 ∨
              exERow0.row.strikes = 2))) :=
  ⟨by decide, processFile_count_bounds [exRow] exERow0 (by decide)⟩

/-- C4 counterexample: a record with `Outs = -1` — outside `{0,1,2}` — is
not excluded by the pre-aggregation filter: it reaches the accumulation. -/
theorem countFilter_no_lower_bound :
    (processFile [exRowNegOuts]).map (fun e => e.row.outs) = [-1] ∧
      ¬∀ e ∈ processFile [exRowNegOuts],
        e.row.outs = 0 ∨ e.row.outs = 1 ∨ e.row.outs = 2 := by
  constructor
  · decide
  · decide

/-- C5 (amended): the corpus-level `ExpectedRuns` and `ZeroRunProbability`
are the exact quotients `TotalRunsRemaining / Count` and
`ZeroRunsCount / Count` — no 4-decimal rounding is applied at
finalization. -/
theorem summary_fields_exact (files : List (List Row)) (s : String)
    (h : (buildSummary files s).count ≠ 0) :
    expectedRunsOf (buildSummary files s) *
          ((buildSummary files s).count : Rat) =
        ((buildSummary files s).total : Rat) ∧
      zeroRunProbOf (buildSummary files s) *
          ((buildSummary files s).count : Rat) =
        ((buildSummary files s).zero : Rat) := by
  unfold expectedRunsOf zeroRunProbOf
  rw [if_pos h, if_pos h]
  have hc : ((buildSummary files s).count : Rat) ≠ 0 := by exact_mod_cast h
  constructor <;> field_simp

/-- C5 witness: the exact-quotient identities at a concrete three-pitch
corpus. -/
theorem summary_fields_exact_witness :
    (buildSummary [exFile] "000-O0-B0-S0").count ≠ 0 ∧
      (expectedRunsOf (buildSummary [exFile] "000-O0-B0-S0") *
            ((buildSummary [exFile] "000-O0-B0-S0").count : Rat) =
          ((buildSummary [exFile] "000-O0-B0-S0").total : Rat) ∧
        zeroRunProbOf (buildSummary [exFile] "000-O0-B0-S0") *
            ((buildSummary [exFile] "000-O0-B0-S0").count : Rat) =
          ((buildSummary [exFile] "000-O0-B0-S0").zero : Rat)) :=
  ⟨by decide, summary_fields_exact [exFile] "000-O0-B0-S0" (by decide)⟩

/-- C5 counterexample: a state observed 3 times with total future runs 2
gets `ExpectedRuns = 2/3` and `ZeroRunProbability = 1/3`, neither of which
is a 4-decimal value (it differs from its own 4-decimal rounding). -/
theorem summary_not_rounded :
    expectedRunsOf (buildSummary [exFile] "000-O0-B0-S0") = 2 / 3 ∧
      zeroRunProbOf (buildSummary [exFile] "000-O0-B0-S0") = 1 / 3 ∧
      pyRound4 (2 / 3) ≠ (2 / 3 : Rat) ∧ pyRound4 (1 / 3) ≠ (1 / 3 : Rat) := by
  have hb : buildSummary [exFile] "000-O0-B0-S0" =
      { count := 3, total := 2, zero := 1 } := by decide
  refine ⟨?_, ?_, ?_, ?_⟩
  · rw [hb]; unfold expectedRunsOf; norm_num
  · rw [hb]; unfold zeroRunProbOf; norm_num
  · unfold pyRound4 roundHalfEven
    rw [ratFloor_eq, ratFloor_eq]
    norm_num
  · unfold pyRound4 roundHalfEven
    rw [ratFloor_eq, ratFloor_eq]
    norm_num

/-- C1 (amended): in label generation, for a pitch row whose state is in
the table, the emitted `Target` is `0 − ExpectedRuns(current)` when the
next row's `Top/Bottom` value differs (or there is no next row), and
`ExpectedRuns(next) − ExpectedRuns(current)` when the next row has the same
`Top/Bottom` and its state is in the table; the code compares only the
`Top/Bottom` field, not the full `(Inning, Top/Bottom)` half-inning key. -/
theorem targetCol_topBottom_delta (tbl : String → Option Rat) (rows : List ERow)
    (i : Nat) (r : ERow) (a : Rat)
    (hi : rows[i]? = some r) (ha : tbl r.gameState = some a) :
    (rows[i + 1]?.map (fun r2 => r2.row.topBottom) ≠ some r.row.topBottom →
        (targetCol tbl rows)[i]? = some (some (0 - pyRound4 a))) ∧
      (∀ r2 b, rows[i + 1]? = some r2 → r2.row.topBottom = r.row.topBottom →
        tbl r2.gameState = some b →
        (targetCol tbl rows)[i]? = some (some (pyRound4 b - pyRound4 a))) := by
  have hlen := getElem?_some_lt hi
  have heC : (rows[i]?.map (fun r => (tbl r.gameState).map pyRound4)).join =
      some (pyRound4 a) := by rw [hi]; simp [ha]
  constructor
  · intro hne
    rw [targetCol_getElem? tbl rows i hlen, heC]
    rw [if_pos]
    · simp [osub, pyRound4_neg_round]
    · rw [hi]
      simp only [Option.map_some']
      exact fun hc => hne hc.symm
  · intro r2 b h2 htb hb
    have heN : (rows[i + 1]?.map (fun r => (tbl r.gameState).map pyRound4)).join =
        some (pyRound4 b) := by rw [h2]; simp [hb]
    rw [targetCol_getElem? tbl rows i hlen, heC, heN, if_neg]
    · simp [osub, pyRound4_sub_round]
    · rw [hi, h2]
      simp [htb]

/-- C1 witness: the delta formula instantiated on two consecutive top-half
rows with table values 1 and 2. -/
theorem targetCol_topBottom_delta_witness :
    ([exERow0, exERow1] : List ERow)[0]? = some exERow0 ∧
      exTbl exERow0.gameState = some 1 ∧
      ((([exERow0, exERow1] : List ERow)[1]?.map (fun r2 => r2.row.topBottom) ≠
          some exERow0.row.topBottom →
        (targetCol exTbl [exERow0, exERow1])[0]? =
          some (some (0 - pyRound4 1))) ∧
      (∀ r2 b, ([exERow0, exERow1] : List ERow)[1]? = some r2 →
        r2.row.topBottom = exERow0.row.topBottom →
        exTbl r2.gameState = some b →
        (targetCol exTbl [exERow0, exERow1])[0]? =
          some (some (pyRound4 b - pyRound4 1)))) :=
  ⟨rfl, rfl, targetCol_topBottom_delta exTbl [exERow0, exERow1] 0 exERow0 1 rfl rfl⟩

/-- C1 counterexample: the last pitch of the top of inning 1 followed by
the top of inning 2 (a half-inning key change with the same `Top/Bottom`
value, as when an intervening half-inning is missing from the data): the
half-inning keys differ, yet the code emits
`ExpectedRuns(next) − ExpectedRuns(current) = 1`, not
`0 − ExpectedRuns(current) = −1` as the claim requires. -/
theorem target_halfkey_counterexample :
    halfKey exERow0.row ≠ halfKey exERow1.row ∧
      exTbl exERow0.gameState = some 1 ∧ exTbl exERow1.gameState = some 2 ∧
      (targetCol exTbl [exERow0, exERow1])[0]? = some (some 1) ∧
      some (some (1 : Rat)) ≠ some (some (0 - pyRound4 1)) := by
  have h1 : pyRound4 (1 : Rat) = 1 := pyRound4_eq_self (z := 10000) (by norm_num)
  have h2 : pyRound4 (2 : Rat) = 2 := pyRound4_eq_self (z := 20000) (by norm_num)
  refine ⟨by decide, rfl, rfl, ?_, ?_⟩
  · rw [targetCol_getElem? exTbl [exERow0, exERow1] 0 (by norm_num)]
    have hget0 : ([exERow0, exERow1] : List ERow)[0]? = some exERow0 := rfl
    have hget1 : ([exERow0, exERow1] : List ERow)[1]? = some exERow1 := rfl
    rw [hget0, hget1]
    have htb : exERow0.row.topBottom = exERow1.row.topBottom := rfl
    have ht0 : exTbl exERow0.gameState = some 1 := rfl
    have ht1 : exTbl exERow1.gameState = some 2 := rfl
    simp only [Option.map_some', ht0, ht1, Option.join, Option.some_bind, id]
    rw [if_neg (by simp [htb])]
    simp only [osub, h1, h2]
    norm_num
    exact pyRound4_eq_self (z := 10000) (by norm_num)
  · rw [h1]
    norm_num

/-- C6: a pitch row whose `GameState` misses the expectancy table gets a
null (`NaN`) `Target`, and the label pass still emits one Target per input
row rather than aborting. -/
theorem target_missing_state (tbl : String → Option Rat) (rows : List ERow)
    (i : Nat) (r : ERow) (hi : rows[i]? = some r)
    (hnone : tbl r.gameState = none) :
    (targetCol tbl rows)[i]? = some none ∧
      (targetCol tbl rows).length = rows.length := by
  have hlen := getElem?_some_lt hi
  constructor
  · have heC : (rows[i]?.map (fun r => (tbl r.gameState).map pyRound4)).join =
        none := by rw [hi]; simp [hnone]
    rw [targetCol_getElem? tbl rows i hlen, heC]
    cases heN : (rows[i + 1]?.map (fun r => (tbl r.gameState).map pyRound4)).join with
    | none => split <;> rfl
    | some v => split <;> rfl
  · simp [targetCol]

/-- C6 witness: an empty table yields a null Target for the single row
while the output column keeps its length. -/
theorem target_missing_state_witness :
    (([exERow0] : List ERow)[0]? = some exERow0) ∧
      ((fun _ : String => (none : Option Rat)) exERow0.gameState = none) ∧
      ((targetCol (fun _ => none) [exERow0])[0]? = some none ∧
        (targetCol (fun _ => none) [exERow0]).length = ([exERow0] : List ERow).length) :=
  ⟨rfl, rfl, target_missing_state (fun _ => none) [exERow0] 0 exERow0 rfl rfl⟩

end ExpectedRuns
